import Mathlib

/-!
Verification of `bib_demand.py`: a bibliography reconciliation script with two
parsers (RIS tagged-field format and the "tricat" fixed-field catalog export),
a record type (`LitItem`) with derived accessors, and set-style collection
operations (`unique`, `order_by`) plus report serialization.

The embedding models Python strings as Lean `String`s and Python dicts as
association lists where an *earlier* entry shadows later ones (insertion
prepends, `List.lookup` finds the first hit, so the most recent assignment
wins, exactly like Python dict assignment as far as lookups are concerned).
A Python value that may be `None` is modelled as `Option String` (`none` =
`None`).  Code paths that raise (`AttributeError` on `None.replace`,
`IndexError` on out-of-range list indexing, `ValueError` for bad arguments)
are modelled with `Except Unit`.
-/

namespace BibDemand

/-! ## Python string primitives -/

/-- Python `str.strip()` (both-ends whitespace trim), on the character list. -/
def stripChars (cs : List Char) : List Char :=
  ((cs.dropWhile Char.isWhitespace).reverse.dropWhile Char.isWhitespace).reverse

/-- Python `str.strip()`. -/
def pyStrip (s : String) : String := String.mk (stripChars s.toList)

/-- Python `str.lstrip()`. -/
def pyLStrip (s : String) : String := String.mk (s.toList.dropWhile Char.isWhitespace)

/-- Python `s.startswith(p)`. -/
def pyStartsWith (s p : String) : Bool := p.toList.isPrefixOf s.toList

/-- Fuel-driven worker for `pyReplace`; fuel bounds the recursion depth so the
definition is structural (and hence kernel-reducible).  Each step consumes at
least one character, so fuel `cs.length` is always enough. -/
def replAllGo (pat rep : List Char) : Nat → List Char → List Char
  | _, [] => []
  | 0, cs => cs
  | fuel + 1, c :: cs =>
    if pat.isPrefixOf (c :: cs) ∧ pat ≠ [] then
      rep ++ replAllGo pat rep fuel (cs.drop (pat.length - 1))
    else
      c :: replAllGo pat rep fuel cs

/-- Python `s.replace(pat, rep)` (all non-overlapping occurrences, left to
right) for a non-empty `pat` — every call site in the source uses a non-empty
literal pattern. -/
def pyReplace (s pat rep : String) : String :=
  String.mk (replAllGo pat.toList rep.toList s.toList.length s.toList)

/-- Python `s.replace(pat, rep, 1)`: replace only the first occurrence. -/
def replFirstGo (pat rep : List Char) : List Char → List Char
  | [] => []
  | c :: cs =>
    if pat.isPrefixOf (c :: cs) ∧ pat ≠ [] then
      rep ++ (c :: cs).drop pat.length
    else
      c :: replFirstGo pat rep cs

/-- Python `s.replace(pat, rep, 1)` for a non-empty `pat`. -/
def pyReplaceFirst (s pat rep : String) : String :=
  String.mk (replFirstGo pat.toList rep.toList s.toList)

/-- Fuel-driven worker for `pySplit` (split on every occurrence of the
separator, no merging — Python `str.split(sep)`). -/
def pySplitGo (sep : List Char) : Nat → List Char → List Char → List (List Char)
  | _, acc, [] => [acc.reverse]
  | 0, acc, cs => [acc.reverse ++ cs]
  | fuel + 1, acc, c :: cs =>
    if sep.isPrefixOf (c :: cs) ∧ sep ≠ [] then
      acc.reverse :: pySplitGo sep fuel [] (cs.drop (sep.length - 1))
    else
      pySplitGo sep fuel (c :: acc) cs

/-- Python `s.split(sep)` for a non-empty separator.  On the empty string it
returns `[""]`, exactly like Python. -/
def pySplit (s sep : String) : List String :=
  (pySplitGo sep.toList s.toList.length [] s.toList).map String.mk

/-- Python `sep.join(xs)`. -/
def pyJoin (sep : String) (xs : List String) : String :=
  match xs with
  | [] => ""
  | x :: rest => rest.foldl (fun a b => a ++ sep ++ b) x

/-- Python string `<=` : lexicographic comparison by code point, a proper
prefix compares smaller. -/
def charListLe : List Char → List Char → Bool
  | [], _ => true
  | _ :: _, [] => false
  | a :: as, b :: bs =>
    if a < b then true
    else if b < a then false
    else charListLe as bs

/-- Python `a <= b` on strings. -/
def pyStrLe (a b : String) : Bool := charListLe a.toList b.toList

/-! ## The record data model

`LitItem.data` is a Python dict `str -> str | None`; see the header comment
for the association-list encoding. -/

/-- The internal field map of a `LitItem` (`self.data` in the source). -/
abbrev LitData := List (String × Option String)

/-- Python `d.get(k, dflt)`: the stored value when the key is present (even
when that stored value is `None`), otherwise the default. -/
def pyGet (d : LitData) (k : String) (dflt : Option String) : Option String :=
  (List.lookup k d).getD dflt

/-- Model of `LitItem.get_title`:
`self.data.get('T1', 'kein Titel').replace('\n', ' ').strip()`.
A stored `None` makes Python raise `AttributeError` (modelled as `.error`). -/
def get_title (d : LitData) : Except Unit String :=
  match pyGet d "T1" (some "kein Titel") with
  | none => .error ()
  | some s => .ok (pyStrip (pyReplace s "\n" " "))

/-- Model of `LitItem.get_year`: default `'kein Jahr'`, a falsy value (empty string or
`None`) also yields `'kein Jahr'`, otherwise brackets are removed and the
result trimmed.  Total: no code path calls a method on `None`. -/
def get_year (d : LitData) : String :=
  match pyGet d "PY" (some "kein Jahr") with
  | none => "kein Jahr"
  | some s =>
    if s = "" then "kein Jahr"
    else pyStrip (pyReplace (pyReplace s "[" "") "]" "")

/-- Model of `LitItem.get_author`: normalized `A1` if non-empty, else normalized
`self.data.get('A2', 'kein Autor')`.  A stored `None` under a consulted key
raises (modelled as `.error`). -/
def get_author (d : LitData) : Except Unit String :=
  match pyGet d "A1" (some "") with
  | none => .error ()
  | some a =>
    let an := pyStrip (pyReplace a "\n" " ")
    if an = "" then
      match pyGet d "A2" (some "kein Autor") with
      | none => .error ()
      | some b => .ok (pyStrip (pyReplace b "\n" " "))
    else .ok an

/-- Model of `LitItem.__eq__`: title and year equality, author ignored.  The Python
`and` short-circuits after the title comparison. -/
def lit_eq (d e : LitData) : Except Unit Bool := do
  let t1 ← get_title d
  let t2 ← get_title e
  if t1 = t2 then pure (decide (get_year d = get_year e)) else pure false

/-! ## The RIS (tagged-field) parser -/

/-- Model of `re.match('(\S\S)\s\s-(.*)', line)`: two non-whitespace characters, two
whitespace characters, a literal dash, then the rest of the line.  `\s` is
modelled by `Char.isWhitespace`; the lines fed to it contain no newline, so
`(.*)` is simply the remainder. -/
def risMatch (line : String) : Option (String × String) :=
  match line.toList with
  | c1 :: c2 :: c3 :: c4 :: c5 :: rest =>
    if ¬c1.isWhitespace ∧ ¬c2.isWhitespace ∧ c3.isWhitespace ∧ c4.isWhitespace ∧ c5 = '-' then
      some (String.mk [c1, c2], String.mk rest)
    else none
  | _ => none

/-- The loop body of `LitItem.__extract_ris`: walk the lines carrying the
current key, the accumulated datum, and the dict built so far.  A matching
line flushes the previous section (only when the current key is non-empty)
and starts a new one; a non-matching line is appended with a preceding line
break; after the last line the pending section is stored unconditionally. -/
def risLoop : List String → String → String → LitData → LitData
  | [], ck, cd, d => (ck, some cd) :: d
  | line :: rest, ck, cd, d =>
    match risMatch line with
    | some (k, v) => risLoop rest k v (if ck = "" then d else (ck, some cd) :: d)
    | none => risLoop rest ck (cd ++ "\n" ++ line) d

/-- Model of `LitItem.__extract_ris`. -/
def extract_ris (data : String) : LitData :=
  risLoop (pySplit data "\n") "" "" []

/-- The chronological list of `(tag, value)` stores `__extract_ris` performs,
mirroring `risLoop` (a bookkeeping view used to state the
last-occurrence-wins property). -/
def risSections : List String → String → String → List (String × String)
  | [], ck, cd => [(ck, cd)]
  | line :: rest, ck, cd =>
    match risMatch line with
    | some (k, v) => (if ck = "" then [] else [(ck, cd)]) ++ risSections rest k v
    | none => risSections rest ck (cd ++ "\n" ++ line)

/-- The value of the last section stored under tag `k`, if any. -/
def lastSec (secs : List (String × String)) (k : String) : Option String :=
  ((secs.filter (fun p => p.1 == k)).getLast?).map (fun p => p.2)

/-! ## The tricat (fixed-field) parser -/

/-- Model of `LitItem.__extract_tricat`: map the catalog dict (whose values are always
strings when built by the reader) into the RIS-style logical keys.
`data.get('author')` / `data.get('year')` have no default, so a missing key
stores Python `None` (`none`). -/
def extract_tricat (data : List (String × String)) : LitData :=
  [ ("A1", List.lookup "author" data),
    ("T1", some (pyJoin " " [(List.lookup "title" data).getD "", (List.lookup "subtitle" data).getD ""])),
    ("PY", List.lookup "year" data) ]

/-- The per-line cleanup inside `Bibliography.__accumulate_tricat_lines`:
strip a leading field label (first occurrence only for the title labels, all
occurrences of the literal `'1. Person/Fam.'` for the author label), then
trim and delete embedded newlines. -/
def tricatClean (line : String) : String :=
  let l :=
    if pyStartsWith (pyLStrip line) "Haupttitel" then pyReplaceFirst line "Haupttitel" ""
    else if pyStartsWith (pyLStrip line) "Titelzusatz" then pyReplaceFirst line "Titelzusatz" ""
    else if pyStartsWith (pyLStrip line) "1. Person" then pyReplace line "1. Person/Fam." ""
    else line
  pyReplace (pyStrip l) "\n" ""

/-- Loop of `Bibliography.__accumulate_tricat_lines`.  The Python condition is
`while lines[line_number].strip() and line_number < count`: the indexing
happens *before* the bounds test, so running past the last line raises
`IndexError` (`.error`).  Fuel keeps the recursion structural; each step
advances the cursor, so fuel `lines.length + 1` can never run out before the
cursor leaves the list. -/
def accGo (lines : List String) : Nat → Nat → List String → Except Unit (List String)
  | 0, _, _ => .error ()
  | fuel + 1, ln, acc =>
    match lines.get? ln with
    | none => .error ()
    | some l =>
      if pyStrip l = "" then .ok acc.reverse
      else accGo lines fuel (ln + 1) (tricatClean l :: acc)

/-- Model of `Bibliography.__accumulate_tricat_lines`: returns the fragments joined
with single spaces and the number of lines consumed. -/
def accumulate_tricat_lines (lines : List String) (ln : Nat) : Except Unit (String × Nat) :=
  (accGo lines (lines.length + 1) ln []).map (fun data => (pyJoin " " data, data.length))

/-- Loop of `Bibliography.__read_tricat_file`: scan the lines with a cursor;
`Jahr` stores a single line, `Haupttitel`/`Titelzusatz` accumulate, and
`1. Person` first commits the current entry (if non-empty) and then
accumulates the author; any other line just advances the cursor.  After the
scan the pending entry is committed unconditionally.  The working dict has
plain string values, encoded like `LitData` (newest binding first). -/
def tricatGo (lines : List String) :
    Nat → Nat → List (String × String) → List (List (String × String)) →
    Except Unit (List (List (String × String)))
  | 0, _, _, _ => .error ()
  | fuel + 1, ln, cur, items =>
    if h : ln < lines.length then
      let line := lines.get ⟨ln, h⟩
      if pyStartsWith (pyLStrip line) "Jahr" then
        tricatGo lines fuel (ln + 1) (("year", pyStrip (pyReplaceFirst line "Jahr" "")) :: cur) items
      else if pyStartsWith (pyLStrip line) "Haupttitel" then
        match accumulate_tricat_lines lines ln with
        | .error e => .error e
        | .ok (data, off) => tricatGo lines fuel (ln + off) (("title", data) :: cur) items
      else if pyStartsWith (pyLStrip line) "Titelzusatz" then
        match accumulate_tricat_lines lines ln with
        | .error e => .error e
        | .ok (data, off) => tricatGo lines fuel (ln + off) (("subtitle", data) :: cur) items
      else if pyStartsWith (pyLStrip line) "1. Person" then
        let committed := if cur = [] then items else items ++ [cur]
        let cur' : List (String × String) := if cur = [] then cur else []
        match accumulate_tricat_lines lines ln with
        | .error e => .error e
        | .ok (data, off) => tricatGo lines fuel (ln + off) (("author", data) :: cur') committed
      else tricatGo lines fuel (ln + 1) cur items
    else .ok (items ++ [cur])

/-- Model of `Bibliography.__read_tricat_file`, as a function of the file's lines
(`f.readlines()` output: lines keep their trailing newline). -/
def read_tricat_file (lines : List String) : Except Unit (List LitData) :=
  (tricatGo lines (lines.length + 1) 0 [] []).map (fun raws => raws.map extract_tricat)

/-! ## Collection operations -/

/-- Python `item not in unique` for a list of records: the element is the left
operand of each `==` check, and a raised comparison propagates. -/
def pyNotIn (xs : List LitData) (a : LitData) : Except Unit Bool :=
  match xs with
  | [] => pure true
  | x :: rest => do
    let b ← lit_eq x a
    if b then pure false else pyNotIn rest a

/-- Loop of `Bibliography.unique`: append each item whose equal is not
already in the accumulator. -/
def uniqGo (acc : List LitData) : List LitData → Except Unit (List LitData)
  | [] => pure acc
  | x :: rest => do
    let b ← pyNotIn acc x
    if b then uniqGo (acc ++ [x]) rest else uniqGo acc rest

/-- Model of `Bibliography.unique`. -/
def unique (items : List LitData) : Except Unit (List LitData) :=
  uniqGo [] items

/-- Left-to-right effectful map (the evaluation order Python uses when it
computes sort keys or serializes items); the first raise propagates. -/
def mapExc {α β : Type} (f : α → Except Unit β) : List α → Except Unit (List β)
  | [] => pure []
  | x :: xs => do
    let y ← f x
    let ys ← mapExc f xs
    pure (y :: ys)

/-- The sort key for `Bibliography.order_by` (only consulted for the three
valid field names). -/
def keyFor (attr : String) (d : LitData) : Except Unit String :=
  if attr = "title" then get_title d
  else if attr = "author" then get_author d
  else .ok (get_year d)

/-- Comparison of keyed records by their (string) key. -/
def pairLe (a b : String × LitData) : Bool := pyStrLe a.1 b.1

/-- Insert `x` after every leading element `y` with `le y x`; the building
block of a stable ascending sort. -/
def sInsert {α : Type} (le : α → α → Bool) (x : α) : List α → List α
  | [] => [x]
  | y :: ys => if le y x then y :: sInsert le x ys else x :: y :: ys

/-- Stable ascending sort (insert the items left to right): extensionally the
unique stable sort, hence a faithful model of Python's `sorted`. -/
def sSort {α : Type} (le : α → α → Bool) (l : List α) : List α :=
  l.foldl (fun acc x => sInsert le x acc) []

/-- Model of `Bibliography.order_by`: decorate each item with its derived key (keys
are computed once, left to right, like Python's `sorted(key=...)`), sort
stably and ascending by the key, and return the items; any field name other
than `title`, `author`, `year` raises `ValueError`. -/
def order_by (items : List LitData) (attr : String) : Except Unit (List LitData) :=
  if attr = "title" ∨ attr = "author" ∨ attr = "year" then
    (mapExc (fun d => (keyFor attr d).map (fun k => (k, d))) items).map
      (fun keyed => (sSort pairLe keyed).map (fun p => p.2))
  else .error ()

/-! ## Report serialization -/

/-- Model of `LitItem.__str__`: `'{}\n{}\n{}\n'.format(author, title, year)` with the
accessors evaluated left to right. -/
def litem_str (d : LitData) : Except Unit String := do
  let a ← get_author d
  let t ← get_title d
  pure (a ++ "\n" ++ t ++ "\n" ++ get_year d ++ "\n")

/-- Model of `Bibliography.__str__`: `'\n'.join(str(item) for item in items)`. -/
def bib_str (items : List LitData) : Except Unit String :=
  (mapExc litem_str items).map (pyJoin "\n")

/-- The full text `Bibliography.write_to_file` writes:
`header + ' (' + str(len(self)) + ')\n\n'` followed by `str(self)`. -/
def report (items : List LitData) (header : String) : Except Unit String :=
  (bib_str items).map
    (fun body => header ++ " (" ++ toString items.length ++ ")\n\n" ++ body)

/-! ## Specification-side helper definitions -/

/-- Holds exactly when the accessor did not raise. -/
def isOkB (e : Except Unit String) : Bool :=
  match e with
  | .ok _ => true
  | .error _ => false

/-- The derived title as a plain string (only meaningful when `get_title`
succeeds). -/
def titleF (d : LitData) : String :=
  match get_title d with
  | .ok t => t
  | .error _ => ""

/-- Boolean record equality: the value `LitItem.__eq__` computes whenever the
title accessors succeed. -/
def eqb (d e : LitData) : Bool :=
  decide (titleF d = titleF e) && decide (get_year d = get_year e)

/-- Pure mirror of the `unique` loop, used to reason about it. -/
def dedupGo (acc : List LitData) : List LitData → List LitData
  | [] => acc
  | x :: rest =>
    if acc.any (fun y => eqb y x) then dedupGo acc rest
    else dedupGo (acc ++ [x]) rest

/-! ## Concrete inputs used by the claim theorems -/

/-- The fixed-field input of claim C3: the three claimed lines as a fresh
entry block (the author label opens the entry; blank lines end the
multi-line accumulations, as `readlines` would deliver them). -/
def C3lines : List String :=
  ["1. Person Smith, J.\n", "\n", "Jahr 2019\n", "Haupttitel Bar\n", "\n"]

/-- The record the parser actually commits for `C3lines`. -/
def C3rec : LitData :=
  [("A1", some "1. Person Smith, J."), ("T1", some "Bar "), ("PY", some "2019")]

/-- The all-sentinel trailing record committed for an input with no
recognized label lines. -/
def C5rec : LitData := [("A1", none), ("T1", some " "), ("PY", none)]

/-- Concrete input for the C7 witness: first and third items are equal per
the record-equality rule (same title and year, different author). -/
def C7items : List LitData :=
  [[("T1", some "a"), ("A1", some "X"), ("PY", some "1")],
   [("T1", some "b"), ("A1", some "Y"), ("PY", some "2")],
   [("T1", some "a"), ("A1", some "Z"), ("PY", some "1")]]

/-- Concrete input for the C8 witness: a title tie between the second and
third items checks stability. -/
def C8items : List LitData :=
  [[("T1", some "b"), ("A1", some "P"), ("PY", some "1")],
   [("T1", some "a"), ("A1", some "Q"), ("PY", some "2")],
   [("T1", some "a"), ("A1", some "R"), ("PY", some "3")]]

/-- The keys `order_by C8items "title"` computes. -/
def C8keyed : List (String × LitData) :=
  [("b", [("T1", some "b"), ("A1", some "P"), ("PY", some "1")]),
   ("a", [("T1", some "a"), ("A1", some "Q"), ("PY", some "2")]),
   ("a", [("T1", some "a"), ("A1", some "R"), ("PY", some "3")])]

/-! ## Order lemmas for the Python string comparison -/

theorem charListLe_refl : ∀ l : List Char, charListLe l l = true := by
  intro l
  induction l with
  | nil => rfl
  | cons a as ih => simp [charListLe, lt_irrefl, ih]

theorem charListLe_total : ∀ a b : List Char, charListLe a b = true ∨ charListLe b a = true := by
  intro a
  induction a with
  | nil => intro b; left; rfl
  | cons x xs ih =>
    intro b
    cases b with
    | nil => right; rfl
    | cons y ys =>
      rcases lt_trichotomy x y with h | h | h
      · left; simp [charListLe, h]
      · subst h
        rcases ih ys with h' | h'
        · left; simpa [charListLe, lt_irrefl] using h'
        · right; simpa [charListLe, lt_irrefl] using h'
      · right; simp [charListLe, h]

theorem charListLe_trans :
    ∀ a b c : List Char, charListLe a b = true → charListLe b c = true →
      charListLe a c = true := by
  intro a
  induction a with
  | nil => intro b c _ _; rfl
  | cons x xs ih =>
    intro b c hab hbc
    cases b with
    | nil => simp [charListLe] at hab
    | cons y ys =>
      cases c with
      | nil => simp [charListLe] at hbc
      | cons z zs =>
        rcases lt_trichotomy x y with hxy | hxy | hxy
        · rcases lt_trichotomy y z with hyz | hyz | hyz
          · simp [charListLe, lt_trans hxy hyz]
          · subst hyz; simp [charListLe, hxy]
          · simp [charListLe, hyz, asymm hyz] at hbc
        · subst hxy
          rcases lt_trichotomy x z with hyz | hyz | hyz
          · simp [charListLe, hyz]
          · subst hyz
            simp only [charListLe, lt_irrefl, if_false] at hab hbc ⊢
            exact ih ys zs hab hbc
          · simp [charListLe, hyz, asymm hyz] at hbc
        · simp [charListLe, hxy, asymm hxy] at hab

theorem pyStrLe_refl (a : String) : pyStrLe a a = true := charListLe_refl _

theorem pyStrLe_total (a b : String) : pyStrLe a b = true ∨ pyStrLe b a = true :=
  charListLe_total _ _

theorem pyStrLe_trans {a b c : String} (h1 : pyStrLe a b = true) (h2 : pyStrLe b c = true) :
    pyStrLe a c = true := charListLe_trans _ _ _ h1 h2

/-! ## Stable sort lemmas -/

section SortLemmas

variable {α : Type} (le : α → α → Bool)

/-- Lemma: `sInsert` splits the accumulator at the first element not `le`-below `x`. -/
theorem sInsert_split (x : α) :
    ∀ acc : List α, ∃ a1 a2 : List α,
      acc = a1 ++ a2 ∧ sInsert le x acc = a1 ++ x :: a2 ∧
      (∀ y ∈ a1, le y x = true) ∧ (∀ z zs, a2 = z :: zs → le z x = false) := by
  intro acc
  induction acc with
  | nil => exact ⟨[], [], rfl, rfl, by simp, by simp⟩
  | cons y ys ih =>
    by_cases h : le y x = true
    · obtain ⟨a1, a2, he, hs, h1, h2⟩ := ih
      refine ⟨y :: a1, a2, by simp [he], by simp [sInsert, h, hs], ?_, h2⟩
      intro z hz
      rcases List.mem_cons.mp hz with rfl | hz
      · exact h
      · exact h1 z hz
    · refine ⟨[], y :: ys, rfl, ?_, by simp, ?_⟩
      · rw [Bool.not_eq_true] at h
        simp [sInsert, h]
      · intro z zs he
        rw [Bool.not_eq_true] at h
        cases he
        exact h

theorem sInsert_perm (x : α) (acc : List α) : (sInsert le x acc).Perm (x :: acc) := by
  obtain ⟨a1, a2, he, hs, -, -⟩ := sInsert_split le x acc
  rw [hs, he]
  exact List.perm_middle

theorem sInsert_pairwise
    (htot : ∀ a b : α, le a b = true ∨ le b a = true)
    (htrans : ∀ a b c : α, le a b = true → le b c = true → le a c = true)
    (x : α) (acc : List α)
    (h : acc.Pairwise (fun a b => le a b = true)) :
    (sInsert le x acc).Pairwise (fun a b => le a b = true) := by
  obtain ⟨a1, a2, he, hs, h1, h2⟩ := sInsert_split le x acc
  subst he
  rw [hs]
  rw [List.pairwise_append] at h
  obtain ⟨p1, p2, cross⟩ := h
  rw [List.pairwise_append]
  refine ⟨p1, ?_, ?_⟩
  · rw [List.pairwise_cons]
    refine ⟨?_, p2⟩
    intro b hb
    cases a2 with
    | nil => simp at hb
    | cons z zs =>
      have hzx : le z x = false := h2 z zs rfl
      have hxz : le x z = true := by
        rcases htot x z with h' | h'
        · exact h'
        · rw [h'] at hzx; cases hzx
      rcases List.mem_cons.mp hb with rfl | hb
      · exact hxz
      · have hzb : le z b = true := (List.pairwise_cons.mp p2).1 b hb
        exact htrans x z b hxz hzb
  · intro a ha b hb
    rcases List.mem_cons.mp hb with rfl | hb
    · exact h1 a ha
    · exact cross a ha b hb

theorem sInsert_filter
    (htrans : ∀ a b c : α, le a b = true → le b c = true → le a c = true)
    (p : α → Bool)
    (hp : ∀ a b : α, p a = true → p b = true → le a b = true)
    (x : α) (acc : List α) (h : acc.Pairwise (fun a b => le a b = true)) :
    (sInsert le x acc).filter p = acc.filter p ++ (if p x then [x] else []) := by
  obtain ⟨a1, a2, he, hs, h1, h2⟩ := sInsert_split le x acc
  subst he
  rw [hs]
  rw [List.pairwise_append] at h
  obtain ⟨-, p2, -⟩ := h
  by_cases hx : p x = true
  · have ha2 : a2.filter p = [] := by
      rw [List.filter_eq_nil_iff]
      intro z' hz'
      intro hpz'
      cases a2 with
      | nil => simp at hz'
      | cons z zs =>
        have hzx : le z x = false := h2 z zs rfl
        rcases List.mem_cons.mp hz' with rfl | hz'
        · rw [hp z' x hpz' hx] at hzx; cases hzx
        · have hzz' : le z z' = true := (List.pairwise_cons.mp p2).1 z' hz'
          have : le z x = true := htrans z z' x hzz' (hp z' x hpz' hx)
          rw [this] at hzx; cases hzx
    simp [List.filter_append, List.filter_cons, hx, ha2]
  · rw [Bool.not_eq_true] at hx
    simp [List.filter_append, List.filter_cons, hx]

theorem sSortAux_pairwise
    (htot : ∀ a b : α, le a b = true ∨ le b a = true)
    (htrans : ∀ a b c : α, le a b = true → le b c = true → le a c = true) :
    ∀ (l acc : List α), acc.Pairwise (fun a b => le a b = true) →
      (l.foldl (fun acc x => sInsert le x acc) acc).Pairwise (fun a b => le a b = true) := by
  intro l
  induction l with
  | nil => intro acc h; simpa using h
  | cons x rest ih =>
    intro acc h
    exact ih (sInsert le x acc) (sInsert_pairwise le htot htrans x acc h)

theorem sSortAux_filter
    (htot : ∀ a b : α, le a b = true ∨ le b a = true)
    (htrans : ∀ a b c : α, le a b = true → le b c = true → le a c = true)
    (p : α → Bool)
    (hp : ∀ a b : α, p a = true → p b = true → le a b = true) :
    ∀ (l acc : List α), acc.Pairwise (fun a b => le a b = true) →
      (l.foldl (fun acc x => sInsert le x acc) acc).filter p =
        acc.filter p ++ l.filter p := by
  intro l
  induction l with
  | nil => intro acc h; simp
  | cons x rest ih =>
    intro acc h
    have hstep := ih (sInsert le x acc) (sInsert_pairwise le htot htrans x acc h)
    calc ((x :: rest).foldl (fun acc x => sInsert le x acc) acc).filter p
        = (sInsert le x acc).filter p ++ rest.filter p := hstep
      _ = (acc.filter p ++ (if p x then [x] else [])) ++ rest.filter p := by
          rw [sInsert_filter le htrans p hp x acc h]
      _ = acc.filter p ++ (x :: rest).filter p := by
          rw [List.filter_cons]
          cases hx : p x <;> simp

theorem sSortAux_perm :
    ∀ (l acc : List α), (l.foldl (fun acc x => sInsert le x acc) acc).Perm (acc ++ l) := by
  intro l
  induction l with
  | nil => intro acc; simp
  | cons x rest ih =>
    intro acc
    have h1 : ((x :: rest).foldl (fun acc x => sInsert le x acc) acc) =
        rest.foldl (fun acc x => sInsert le x acc) (sInsert le x acc) := rfl
    rw [h1]
    have h2 := ih (sInsert le x acc)
    have h3 : (sInsert le x acc ++ rest).Perm ((x :: acc) ++ rest) :=
      (sInsert_perm le x acc).append_right rest
    have h4 : ((x :: acc) ++ rest).Perm (acc ++ x :: rest) := List.perm_middle.symm
    exact (h2.trans h3).trans h4

theorem sSort_pairwise
    (htot : ∀ a b : α, le a b = true ∨ le b a = true)
    (htrans : ∀ a b c : α, le a b = true → le b c = true → le a c = true)
    (l : List α) :
    (sSort le l).Pairwise (fun a b => le a b = true) :=
  sSortAux_pairwise le htot htrans l [] (List.Pairwise.nil)

theorem sSort_filter
    (htot : ∀ a b : α, le a b = true ∨ le b a = true)
    (htrans : ∀ a b c : α, le a b = true → le b c = true → le a c = true)
    (p : α → Bool)
    (hp : ∀ a b : α, p a = true → p b = true → le a b = true) (l : List α) :
    (sSort le l).filter p = l.filter p :=
  sSortAux_filter le htot htrans p hp l [] (List.Pairwise.nil)

theorem sSort_perm (l : List α) : (sSort le l).Perm l := by
  simpa using sSortAux_perm le l []

end SortLemmas

/-! ## Deduplication lemmas -/

@[simp] theorem exc_bind_ok {α β : Type} (x : α) (f : α → Except Unit β) :
    (Except.ok x : Except Unit α) >>= f = f x := rfl

@[simp] theorem exc_pure_ok {α : Type} (x : α) :
    (pure x : Except Unit α) = Except.ok x := rfl

@[simp] theorem exc_bind_error {α β : Type} (e : Unit) (f : α → Except Unit β) :
    (Except.error e : Except Unit α) >>= f = Except.error e := rfl

@[simp] theorem exc_map_ok {α β : Type} (g : α → β) (x : α) :
    Except.map g (Except.ok x : Except Unit α) = Except.ok (g x) := rfl

@[simp] theorem exc_map_error {α β : Type} (g : α → β) (e : Unit) :
    Except.map g (Except.error e : Except Unit α) = Except.error e := rfl

theorem get_title_okF (d : LitData) (h : isOkB (get_title d) = true) :
    get_title d = .ok (titleF d) := by
  cases ht : get_title d with
  | ok t => simp [titleF, ht]
  | error e => rw [ht] at h; simp [isOkB] at h

theorem lit_eq_ok {a b : LitData}
    (ha : isOkB (get_title a) = true) (hb : isOkB (get_title b) = true) :
    lit_eq a b = .ok (eqb a b) := by
  simp only [lit_eq, get_title_okF a ha, get_title_okF b hb]
  by_cases ht : titleF a = titleF b
  · simp [ht, eqb]
  · simp [ht, eqb]

theorem pyNotIn_ok :
    ∀ (xs : List LitData) (a : LitData),
      (∀ y ∈ xs, isOkB (get_title y) = true) → isOkB (get_title a) = true →
      pyNotIn xs a = .ok (!xs.any (fun y => eqb y a)) := by
  intro xs a
  induction xs with
  | nil => intro _ _; rfl
  | cons x rest ih =>
    intro hxs ha
    have hx := hxs x (List.mem_cons_self x rest)
    have heq := lit_eq_ok hx ha
    by_cases hb : eqb x a = true
    · simp [pyNotIn, heq, hb]
    · rw [Bool.not_eq_true] at hb
      simp only [pyNotIn, heq, hb, List.any_cons]
      simpa using ih (fun y hy => hxs y (List.mem_cons_of_mem x hy)) ha

theorem uniqGo_eq :
    ∀ (l acc : List LitData),
      (∀ y ∈ acc, isOkB (get_title y) = true) →
      (∀ y ∈ l, isOkB (get_title y) = true) →
      uniqGo acc l = .ok (dedupGo acc l) := by
  intro l
  induction l with
  | nil => intro acc _ _; rfl
  | cons x rest ih =>
    intro acc hacc hl
    have hx : isOkB (get_title x) = true := hl x (List.mem_cons_self x rest)
    have hrest : ∀ y ∈ rest, isOkB (get_title y) = true :=
      fun y hy => hl y (List.mem_cons_of_mem x hy)
    have hnotin := pyNotIn_ok acc x hacc hx
    by_cases hany : acc.any (fun y => eqb y x) = true
    · simp only [uniqGo, hnotin, dedupGo, hany]
      simpa using ih acc hacc hrest
    · rw [Bool.not_eq_true] at hany
      simp only [uniqGo, hnotin, dedupGo, hany]
      have hacc' : ∀ y ∈ acc ++ [x], isOkB (get_title y) = true := by
        intro y hy
        rcases List.mem_append.mp hy with hy | hy
        · exact hacc y hy
        · rcases List.mem_singleton.mp hy with rfl
          exact hx
      simpa using ih (acc ++ [x]) hacc' hrest

theorem dedupGo_shape :
    ∀ (l acc : List LitData), ∃ s, s.Sublist l ∧ dedupGo acc l = acc ++ s := by
  intro l
  induction l with
  | nil => intro acc; exact ⟨[], List.nil_sublist _, by simp [dedupGo]⟩
  | cons x rest ih =>
    intro acc
    by_cases hany : acc.any (fun y => eqb y x) = true
    · obtain ⟨s, hs, he⟩ := ih acc
      exact ⟨s, hs.cons x, by simp [dedupGo, hany, he]⟩
    · rw [Bool.not_eq_true] at hany
      obtain ⟨s, hs, he⟩ := ih (acc ++ [x])
      refine ⟨x :: s, hs.cons₂ x, ?_⟩
      simp [dedupGo, hany, he]

theorem dedupGo_pairwise :
    ∀ (l acc : List LitData), acc.Pairwise (fun a b => eqb a b = false) →
      (dedupGo acc l).Pairwise (fun a b => eqb a b = false) := by
  intro l
  induction l with
  | nil => intro acc h; simpa [dedupGo] using h
  | cons x rest ih =>
    intro acc h
    by_cases hany : acc.any (fun y => eqb y x) = true
    · simp only [dedupGo, hany, if_true]
      exact ih acc h
    · rw [Bool.not_eq_true] at hany
      simp only [dedupGo, hany, Bool.false_eq_true, if_false]
      apply ih (acc ++ [x])
      rw [List.pairwise_append]
      refine ⟨h, List.pairwise_singleton _ _, ?_⟩
      intro a ha b hb
      rcases List.mem_singleton.mp hb with rfl
      have := List.any_eq_false.mp hany a ha
      simpa using this

theorem dedupGo_first :
    ∀ (l acc : List LitData) (i : Nat) (hi : i < l.length),
      (∀ (j : Nat) (hj : j < i), eqb (l.get ⟨j, Nat.lt_trans hj hi⟩) (l.get ⟨i, hi⟩) = false) →
      (∀ y ∈ acc, eqb y (l.get ⟨i, hi⟩) = false) →
      l.get ⟨i, hi⟩ ∈ dedupGo acc l := by
  intro l
  induction l with
  | nil => intro acc i hi; simp at hi
  | cons x rest ih =>
    intro acc i hi hearlier hacc
    cases i with
    | zero =>
      have hx : (x :: rest).get ⟨0, hi⟩ = x := rfl
      rw [hx] at hacc ⊢
      have hany : acc.any (fun y => eqb y x) = false := by
        rw [List.any_eq_false]
        intro y hy
        simp [hacc y hy]
      simp only [dedupGo, hany, Bool.false_eq_true, if_false]
      obtain ⟨s, _, he⟩ := dedupGo_shape rest (acc ++ [x])
      rw [he]
      simp
    | succ i' =>
      have hi' : i' < rest.length := Nat.lt_of_succ_lt_succ hi
      have hget : (x :: rest).get ⟨i' + 1, hi⟩ = rest.get ⟨i', hi'⟩ := rfl
      rw [hget] at hearlier hacc ⊢
      by_cases hany : acc.any (fun y => eqb y x) = true
      · simp only [dedupGo, hany, if_true]
        apply ih acc i' hi'
        · intro j hj
          exact hearlier (j + 1) (Nat.succ_lt_succ hj)
        · exact hacc
      · rw [Bool.not_eq_true] at hany
        simp only [dedupGo, hany, Bool.false_eq_true, if_false]
        apply ih (acc ++ [x]) i' hi'
        · intro j hj
          exact hearlier (j + 1) (Nat.succ_lt_succ hj)
        · intro y hy
          rcases List.mem_append.mp hy with hy | hy
          · exact hacc y hy
          · rcases List.mem_singleton.mp hy with rfl
            exact hearlier 0 (Nat.succ_pos i')

/-! ## Last-occurrence-wins lemma for the RIS dict -/

theorem risLoop_lookup (k : String) :
    ∀ (lines : List String) (ck cd : String) (d : LitData),
      List.lookup k (risLoop lines ck cd d) =
        (lastSec (risSections lines ck cd) k).elim (List.lookup k d) (fun v => some (some v)) := by
  intro lines
  induction lines with
  | nil =>
    intro ck cd d
    by_cases h : k = ck
    · subst h
      simp [risLoop, risSections, lastSec, List.lookup]
    · have h1 : (k == ck) = false := by simp [h]
      have h2 : (ck == k) = false := by
        simp only [beq_eq_false_iff_ne, ne_eq]
        exact fun he => h he.symm
      simp [risLoop, risSections, lastSec, List.lookup, h1, h2]
  | cons line rest ih =>
    intro ck cd d
    cases hm : risMatch line with
    | none =>
      simp only [risLoop, risSections, hm]
      exact ih ck (cd ++ "\n" ++ line) d
    | some kv =>
      obtain ⟨k', v⟩ := kv
      simp only [risLoop, risSections, hm]
      rw [ih k' v]
      cases hlast : lastSec (risSections rest k' v) k with
      | some w =>
        have hne : (risSections rest k' v).filter (fun p => p.1 == k) ≠ [] := by
          intro hnil
          unfold lastSec at hlast
          rw [hnil] at hlast
          simp at hlast
        have hfull :
            lastSec ((if ck = "" then [] else [(ck, cd)]) ++ risSections rest k' v) k = some w := by
          unfold lastSec at hlast ⊢
          rw [List.filter_append, List.getLast?_append_of_ne_nil _ hne]
          exact hlast
        rw [hfull]
        simp
      | none =>
        have hnil : (risSections rest k' v).filter (fun p => p.1 == k) = [] := by
          unfold lastSec at hlast
          cases hf : (risSections rest k' v).filter (fun p => p.1 == k) with
          | nil => rfl
          | cons a as =>
            rw [hf] at hlast
            have : (a :: as).getLast? ≠ none := by simp [List.getLast?_eq_none_iff]
            cases hg : (a :: as).getLast? with
            | none => exact absurd hg this
            | some p => rw [hg] at hlast; simp at hlast
        by_cases hck : ck = ""
        · subst hck
          simp [hlast, lastSec, hnil]
        · simp only [if_neg hck]
          unfold lastSec
          rw [List.filter_append, hnil, List.append_nil]
          by_cases hkc : k = ck
          · subst hkc
            simp [List.lookup, List.filter]
          · have h1 : (ck == k) = false := by
              simp only [beq_eq_false_iff_ne, ne_eq]
              exact fun he => hkc he.symm
            have h2 : (k == ck) = false := by simp [hkc]
            simp [List.lookup, List.filter, h1, h2]

/-! ## Accessor congruence lemmas (equality looks only at `T1` and `PY`) -/

theorem get_title_congr {d1 d2 : LitData}
    (h : List.lookup "T1" d1 = List.lookup "T1" d2) : get_title d1 = get_title d2 := by
  simp [get_title, pyGet, h]

theorem get_year_congr {d1 d2 : LitData}
    (h : List.lookup "PY" d1 = List.lookup "PY" d2) : get_year d1 = get_year d2 := by
  simp [get_year, pyGet, h]

/-! ## Claim theorems -/

/-- C1: two Records are equal iff their derived title and year values are
equal, and two field maps that differ only in the author tag values (same
`T1`/`PY` bindings) compare equal.  The title hypotheses state that the
title accessors do not raise (true of every parser-produced record). -/
theorem C1_record_equality (d1 d2 : LitData) (t1 t2 : String)
    (h1 : get_title d1 = .ok t1) (h2 : get_title d2 = .ok t2) :
    (lit_eq d1 d2 = .ok true ↔ (t1 = t2 ∧ get_year d1 = get_year d2)) ∧
    ((∀ k, k ≠ "A1" → k ≠ "A2" → List.lookup k d1 = List.lookup k d2) →
      lit_eq d1 d2 = .ok true) := by
  constructor
  · simp only [lit_eq, h1, h2, exc_bind_ok]
    by_cases ht : t1 = t2
    · subst ht
      simp
    · simp [ht]
  · intro hk
    have hT : List.lookup "T1" d1 = List.lookup "T1" d2 := hk "T1" (by decide) (by decide)
    have hY : List.lookup "PY" d1 = List.lookup "PY" d2 := hk "PY" (by decide) (by decide)
    have htitle := get_title_congr hT
    have hyear := get_year_congr hY
    rw [h1, h2] at htitle
    have ht12 : t1 = t2 := by simpa using htitle
    simp only [lit_eq, h1, h2, exc_bind_ok]
    simp [ht12, hyear]

/-- C1 witness: two concrete field maps identical except for the `A1` value
compare equal. -/
theorem C1_witness :
    lit_eq [("T1", some "X"), ("A1", some "Doe, J."), ("PY", some "2020")]
      [("T1", some "X"), ("A1", some "DOE J"), ("PY", some "2020")] = .ok true := by
  apply (C1_record_equality [("T1", some "X"), ("A1", some "Doe, J."), ("PY", some "2020")]
    [("T1", some "X"), ("A1", some "DOE J"), ("PY", some "2020")] "X" "X" rfl rfl).2
  intro k hk1 _
  by_cases hT : k = "T1"
  · subst hT; rfl
  · by_cases hP : k = "PY"
    · subst hP; rfl
    · have b1 : (k == "T1") = false := by simp [hT]
      have b2 : (k == "A1") = false := by simp [hk1]
      have b3 : (k == "PY") = false := by simp [hP]
      simp [List.lookup, b1, b2, b3]

/-- C2: an RIS-derived field map with no `PY` binding yields the year
sentinel (and the year accessor is total, so no error is possible);
similarly a missing `T1` yields the title sentinel and missing `A1`/`A2`
yield the author sentinel — missing fields degrade, they never raise. -/
theorem C2_missing_fields_sentinel (data : String) :
    (List.lookup "PY" (extract_ris data) = none → get_year (extract_ris data) = "kein Jahr") ∧
    (List.lookup "T1" (extract_ris data) = none → get_title (extract_ris data) = .ok "kein Titel") ∧
    (List.lookup "A1" (extract_ris data) = none → List.lookup "A2" (extract_ris data) = none →
      get_author (extract_ris data) = .ok "kein Autor") := by
  refine ⟨?_, ?_, ?_⟩
  · intro h
    simp only [get_year, pyGet, h, Option.getD]
    rfl
  · intro h
    simp only [get_title, pyGet, h, Option.getD]
    rfl
  · intro h1 h2
    simp only [get_author, pyGet, h1, h2, Option.getD]
    rfl

/-- C2 witness: a concrete RIS chunk with no `PY` tag has year `'kein Jahr'`. -/
theorem C2_witness :
    List.lookup "PY" (extract_ris "TY  - JOUR") = none ∧
    get_year (extract_ris "TY  - JOUR") = "kein Jahr" :=
  ⟨rfl, (C2_missing_fields_sentinel "TY  - JOUR").1 rfl⟩

/-- C3 counterexample: on the claimed input the committed Record has
year "2019" and title "Bar", but its derived author is
"1. Person Smith, J." — the `1. Person` label prefix is *not* stripped
(the code only removes the literal `'1. Person/Fam.'`), so the author is
not "Smith, J." as the claim states. -/
theorem C3_counterexample :
    read_tricat_file C3lines = .ok [C3rec] ∧
    get_year C3rec = "2019" ∧
    get_title C3rec = .ok "Bar" ∧
    get_author C3rec = .ok "1. Person Smith, J." ∧
    ("1. Person Smith, J." : String) ≠ "Smith, J." :=
  ⟨rfl, rfl, rfl, rfl, by decide⟩

/-- C3 amended: same input and Record, but the stored author keeps the
`1. Person ` label text in front of the name, because the accumulation
helper only deletes the longer literal label `'1. Person/Fam.'`. -/
theorem C3_amended_label_kept :
    read_tricat_file C3lines = .ok [C3rec] ∧
    get_year C3rec = "2019" ∧
    get_title C3rec = .ok "Bar" ∧
    get_author C3rec = .ok ("1. Person " ++ "Smith, J.") :=
  ⟨rfl, rfl, rfl, rfl⟩

/-- C4: the accumulation helper raises `IndexError` when the accumulation
runs into the end of input (the Python loop indexes `lines[line_number]`
*before* testing `line_number < count`), while a blank line terminates it
normally with the space-joined fragments and the consumed-line count. -/
theorem C4_accumulate_eof_raises :
    accumulate_tricat_lines ["Haupttitel Foo"] 0 = .error () ∧
    accumulate_tricat_lines ["Haupttitel Foo", "\n"] 0 = .ok ("Foo", 1) :=
  ⟨rfl, rfl⟩

/-- C5: the trailing entry is committed unconditionally (an empty input
still yields one Record), and on that Record title and year degrade to
empty/sentinel values — but the author accessor raises (`None.replace`,
an `AttributeError`), contradicting the claim that every accessor
degrades. -/
theorem C5_empty_commit_author_raises :
    read_tricat_file [] = .ok [C5rec] ∧
    get_author C5rec = .error () ∧
    get_title C5rec = .ok "" ∧
    get_year C5rec = "kein Jahr" :=
  ⟨rfl, rfl, rfl, rfl⟩

/-- C6 counterexample: a parser-reachable field map whose primary and
secondary author values both normalize to the empty string yields `""`, not
the author sentinel the claim requires (the sentinel is only the *default*
for an absent `A2` key). -/
theorem C6_counterexample :
    List.lookup "A1" (extract_ris "A1  -  \nA2  - ") = some (some "  ") ∧
    List.lookup "A2" (extract_ris "A1  -  \nA2  - ") = some (some " ") ∧
    pyStrip (pyReplace "  " "\n" " ") = "" ∧
    pyStrip (pyReplace " " "\n" " ") = "" ∧
    get_author (extract_ris "A1  -  \nA2  - ") = .ok "" ∧
    ("" : String) ≠ "kein Autor" :=
  ⟨rfl, rfl, rfl, rfl, rfl, by decide⟩

/-- C6 amended: the author accessor returns the normalized primary author
when that is non-empty; otherwise it returns the normalized value of
`data.get('A2', 'kein Autor')` — so the sentinel appears only when the
secondary key is absent, and a present-but-blank secondary yields `""`. -/
theorem C6_author_fallback (d : LitData) (a : String)
    (h : pyGet d "A1" (some "") = some a) :
    (pyStrip (pyReplace a "\n" " ") ≠ "" →
      get_author d = .ok (pyStrip (pyReplace a "\n" " "))) ∧
    (pyStrip (pyReplace a "\n" " ") = "" →
      ∀ b, pyGet d "A2" (some "kein Autor") = some b →
        get_author d = .ok (pyStrip (pyReplace b "\n" " "))) := by
  constructor
  · intro hne
    simp only [get_author, h]
    simp [hne]
  · intro he b hb
    simp only [get_author, h, hb]
    simp [he]

/-- C6 witness: a concrete map with a non-empty primary author. -/
theorem C6_witness : get_author [("A1", some " X ")] = .ok "X" := by
  have h := (C6_author_fallback [("A1", some " X ")] " X " rfl).1
  exact h (by decide)

/-- C7: under the (parser-guaranteed) hypothesis that every item's title
accessor succeeds, `unique` succeeds and returns a subsequence of the input
(so relative order is kept and the input is untouched), no two kept Records
compare equal, and every Record with no equal predecessor — each first
occurrence of an equality class — is kept. -/
theorem C7_unique_dedup (items : List LitData)
    (h : ∀ d ∈ items, isOkB (get_title d) = true) :
    ∃ us, unique items = .ok us ∧ us.Sublist items ∧
      us.Pairwise (fun a b => lit_eq a b = .ok false) ∧
      ∀ (i : Nat) (hi : i < items.length),
        (∀ (j : Nat) (hj : j < i),
          lit_eq (items.get ⟨j, Nat.lt_trans hj hi⟩) (items.get ⟨i, hi⟩) = .ok false) →
        items.get ⟨i, hi⟩ ∈ us := by
  obtain ⟨s, hs, he⟩ := dedupGo_shape items []
  rw [List.nil_append] at he
  have hsub : (dedupGo [] items).Sublist items := by rw [he]; exact hs
  refine ⟨dedupGo [] items, ?_, hsub, ?_, ?_⟩
  · exact uniqGo_eq items [] (by simp) h
  · have hpw := dedupGo_pairwise items [] List.Pairwise.nil
    refine List.Pairwise.imp_of_mem ?_ hpw
    intro a b ha hb hab
    have haok := h a (hsub.subset ha)
    have hbok := h b (hsub.subset hb)
    rw [lit_eq_ok haok hbok, hab]
  · intro i hi hfirst
    apply dedupGo_first items [] i hi ?_ (by simp)
    intro j hj
    have hj' := hfirst j hj
    have haok := h (items.get ⟨j, Nat.lt_trans hj hi⟩)
      (List.get_mem items j (Nat.lt_trans hj hi))
    have hbok := h (items.get ⟨i, hi⟩) (List.get_mem items i hi)
    have := (lit_eq_ok haok hbok).symm.trans hj'
    simpa using this

/-- C7 witness: the deduplication properties hold of the concrete input. -/
theorem C7_witness :
    ∃ us, unique C7items = .ok us ∧ us.Sublist C7items ∧
      us.Pairwise (fun a b => lit_eq a b = .ok false) ∧
      ∀ (i : Nat) (hi : i < C7items.length),
        (∀ (j : Nat) (hj : j < i),
          lit_eq (C7items.get ⟨j, Nat.lt_trans hj hi⟩) (C7items.get ⟨i, hi⟩) = .ok false) →
        C7items.get ⟨i, hi⟩ ∈ us :=
  C7_unique_dedup C7items (by decide)

/-- The decorated items produced while sorting carry the original item in
the second component. -/
theorem mapExc_keyed_snd (f : LitData → Except Unit String) :
    ∀ (items : List LitData) (keyed : List (String × LitData)),
      mapExc (fun d => (f d).map (fun k => (k, d))) items = .ok keyed →
      keyed.map (fun p => p.2) = items := by
  intro items
  induction items with
  | nil =>
    intro keyed h
    simp only [mapExc] at h
    cases h
    rfl
  | cons x xs ih =>
    intro keyed h
    simp only [mapExc] at h
    cases hfx : f x with
    | error e =>
      rw [hfx] at h
      simp at h
    | ok k =>
      rw [hfx] at h
      cases hrest : mapExc (fun d => (f d).map (fun k => (k, d))) xs with
      | error e =>
        rw [hrest] at h
        simp at h
      | ok ys =>
        rw [hrest] at h
        simp only [exc_map_ok, exc_bind_ok, exc_pure_ok, Except.ok.injEq] at h
        subst h
        simp [ih ys hrest]

/-- C8: for the three valid field names, whenever every key computation
succeeds (guaranteed for parser-produced records) `order_by` returns the
decorated items sorted so that the sequence of derived key values is
non-decreasing in the Python string order, stably — for every key value the
equal-key subsequence is exactly the original one — and as a permutation of
the input whose decorations carry exactly the input items; every other
field name raises `ValueError`. -/
theorem C8_order_by_sorted (items : List LitData) (attr : String) :
    ((attr = "title" ∨ attr = "author" ∨ attr = "year") →
      ∀ keyed, mapExc (fun d => (keyFor attr d).map (fun k => (k, d))) items = .ok keyed →
        order_by items attr = .ok ((sSort pairLe keyed).map (fun p => p.2)) ∧
        ((sSort pairLe keyed).map (fun p => p.1)).Pairwise (fun a b => pyStrLe a b = true) ∧
        (∀ k : String, (sSort pairLe keyed).filter (fun p => p.1 == k) =
          keyed.filter (fun p => p.1 == k)) ∧
        (sSort pairLe keyed).Perm keyed ∧
        keyed.map (fun p => p.2) = items) ∧
    (attr ≠ "title" → attr ≠ "author" → attr ≠ "year" → order_by items attr = .error ()) := by
  have htot : ∀ a b : String × LitData, pairLe a b = true ∨ pairLe b a = true :=
    fun a b => pyStrLe_total a.1 b.1
  have htrans : ∀ a b c : String × LitData,
      pairLe a b = true → pairLe b c = true → pairLe a c = true :=
    fun a b c h1 h2 => pyStrLe_trans h1 h2
  constructor
  · intro hattr keyed hkeyed
    refine ⟨?_, ?_, ?_, ?_, ?_⟩
    · simp only [order_by, if_pos hattr]
      rw [hkeyed]
      rfl
    · rw [List.pairwise_map]
      exact sSort_pairwise pairLe htot htrans keyed
    · intro k
      apply sSort_filter pairLe htot htrans (fun p => p.1 == k)
      intro a b ha hb
      have ha' : a.1 = k := by simpa using ha
      have hb' : b.1 = k := by simpa using hb
      show pyStrLe a.1 b.1 = true
      rw [ha', hb']
      exact pyStrLe_refl k
    · exact sSort_perm pairLe keyed
    · exact mapExc_keyed_snd (keyFor attr) items keyed hkeyed
  · intro h1 h2 h3
    have hno : ¬(attr = "title" ∨ attr = "author" ∨ attr = "year") := by tauto
    simp [order_by, hno]

/-- C8 witness: sorting the concrete input by title gives the tie in
original order after the evaluation of the sort. -/
theorem C8_witness :
    order_by C8items "title" =
      .ok [[("T1", some "a"), ("A1", some "Q"), ("PY", some "2")],
           [("T1", some "a"), ("A1", some "R"), ("PY", some "3")],
           [("T1", some "b"), ("A1", some "P"), ("PY", some "1")]] := by
  have h := ((C8_order_by_sorted C8items "title").1 (Or.inl rfl) C8keyed rfl).1
  rw [h]
  rfl

/-- C9 counterexample: with one Record the report text ends with the
record's year line and a single newline — there is no blank line after the
final record, so the claimed per-record trailing blank line is absent. -/
theorem C9_counterexample :
    report [[("A1", some "A"), ("T1", some "T"), ("PY", some "2000")]] "X" =
      .ok "X (1)\n\nA\nT\n2000\n" ∧
    ("X (1)\n\nA\nT\n2000\n" : String) ≠ "X (1)\n\nA\nT\n2000\n\n" :=
  ⟨rfl, by decide⟩

/-- C9 amended: the report is the header line `<header> (<count>)`, a blank
line, then the Records' three-line blocks (author, title, year, each line
newline-terminated) joined by single newlines — i.e. records are *separated*
by blank lines, and the final record is followed by its own terminating
newline only. -/
theorem C9_report_format (items : List LitData) (header : String) (strs : List String)
    (h : mapExc litem_str items = .ok strs) :
    report items header =
      .ok (header ++ " (" ++ toString items.length ++ ")\n\n" ++ pyJoin "\n" strs) ∧
    ∀ d ∈ items, ∀ s, litem_str d = .ok s →
      ∃ a t, get_author d = .ok a ∧ get_title d = .ok t ∧
        s = a ++ "\n" ++ t ++ "\n" ++ get_year d ++ "\n" := by
  constructor
  · simp [report, bib_str, h, Except.map]
  · intro d _ s hs
    cases hga : get_author d with
    | error e => simp [litem_str, hga] at hs
    | ok a =>
      cases hgt : get_title d with
      | error e => simp [litem_str, hga, hgt] at hs
      | ok t =>
        refine ⟨a, t, rfl, rfl, ?_⟩
        simp only [litem_str, hga, hgt, exc_bind_ok, exc_pure_ok, Except.ok.injEq] at hs
        exact hs.symm

/-- C9 witness: the three-line block shape at a concrete record. -/
theorem C9_witness :
    ∃ a t, get_author [("A1", some "A"), ("T1", some "T"), ("PY", some "2000")] = .ok a ∧
      get_title [("A1", some "A"), ("T1", some "T"), ("PY", some "2000")] = .ok t ∧
      "A\nT\n2000\n" = a ++ "\n" ++ t ++ "\n" ++
        get_year [("A1", some "A"), ("T1", some "T"), ("PY", some "2000")] ++ "\n" :=
  (C9_report_format [[("A1", some "A"), ("T1", some "T"), ("PY", some "2000")]] "X"
      ["A\nT\n2000\n"] rfl).2
    [("A1", some "A"), ("T1", some "T"), ("PY", some "2000")]
    (List.mem_singleton.mpr rfl) "A\nT\n2000\n" rfl

/-- C10: the final RIS field map binds each tag to the value of the *last*
section stored under that tag (later occurrences overwrite earlier ones),
and since the accessors read the map only through lookups, only the last
occurrence affects them — illustrated by the duplicated-`T1` chunk whose
derived title is the second value. -/
theorem C10_last_tag_wins (data k : String) :
    List.lookup k (extract_ris data) =
      (lastSec (risSections (pySplit data "\n") "" "") k).map (fun v => some v) ∧
    get_title (extract_ris "T1  - A\nT1  - B") = .ok "B" := by
  constructor
  · have h := risLoop_lookup k (pySplit data "\n") "" "" []
    simp only [extract_ris]
    rw [h]
    cases hl : lastSec (risSections (pySplit data "\n") "" "") k <;> simp
  · rfl

end BibDemand
